import Mathlib

/-!
Shallow embedding of `code/data_utils.py` (master-thesis repository).

The file models the two functions of the repository:

* `get_bucket_ix` — ceiling-style bucket index for a sequence length;
* `split_to_buckets` — grouping of paired sequence lists into length buckets,
  with a post-pass that merges undersized buckets into neighbours;
* `load_embedding_weights` — building an embedding matrix for a vocabulary
  from a loaded word-vector model.

Python dictionaries preserve insertion order, and `split_to_buckets` both
iterates `buckets.keys()` and compares a bucket index against
`len(buckets.keys())`, so the buckets dictionary is modelled as an
insertion-ordered association list with unique keys.  Python exceptions are
modelled with `Except PyErr`.
-/

set_option autoImplicit false

namespace DataUtils

/-- The Python exceptions that `data_utils.py` can raise:
`assert` failures, `max()` of an empty sequence, and missing dict keys. -/
inductive PyErr where
  | assertionError
  | valueError
  | keyError
deriving Repr, DecidableEq

/-- Python `get_bucket_ix(seq_length, bucket_range)`:
`seq_length // bucket_range + (1 if seq_length % bucket_range != 0 else 0)`.
(Python raises `ZeroDivisionError` for `bucket_range = 0`; every claim about
this function assumes a positive bucket range, matching Python `//` and `%`
on naturals.) -/
def get_bucket_ix (seq_length bucket_range : Nat) : Nat :=
  seq_length / bucket_range + (if seq_length % bucket_range ≠ 0 then 1 else 0)

/-- One bucket value of the `buckets` dictionary:
`{"X_word_seq": [], "y_word_seq": [], "X_max_seq_len": 0, "y_max_seq_len": 0}`. -/
@[ext]
structure Bucket (α β : Type) where
  X_word_seq : List (List α)
  y_word_seq : List (List β)
  X_max_seq_len : Nat
  y_max_seq_len : Nat
deriving Repr, DecidableEq

/-- The fresh bucket inserted when a bucket index is first seen. -/
def Bucket.empty {α β : Type} : Bucket α β :=
  { X_word_seq := [], y_word_seq := [], X_max_seq_len := 0, y_max_seq_len := 0 }

/-- The `buckets` dictionary: an insertion-ordered association list from
bucket index to bucket, with unique keys by construction. -/
abbrev Buckets (α β : Type) := List (Nat × Bucket α β)

/-- Dictionary lookup `buckets[k]` (first entry with the key; keys are unique). -/
def bfind {α β : Type} (bs : Buckets α β) (k : Nat) : Option (Bucket α β) :=
  match bs with
  | [] => none
  | (k', b) :: rest => if k' = k then some b else bfind rest k

/-- Dictionary update `buckets[k] = b` for a key already present
(updates the first entry with the key, keeps insertion order). -/
def bset {α β : Type} (bs : Buckets α β) (k : Nat) (b : Bucket α β) : Buckets α β :=
  match bs with
  | [] => []
  | (k', b') :: rest => if k' = k then (k', b) :: rest else (k', b') :: bset rest k b

/-- Appending one sequence pair to a bucket, updating the running maxima:
the four mutations performed on `buckets[bucket]` inside the assignment loop. -/
def addPair {α β : Type} (b : Bucket α β) (X_seq : List α) (y_seq : List β) : Bucket α β :=
  { X_word_seq := b.X_word_seq ++ [X_seq]
  , y_word_seq := b.y_word_seq ++ [y_seq]
  , X_max_seq_len := max b.X_max_seq_len X_seq.length
  , y_max_seq_len := max b.y_max_seq_len y_seq.length }

/-- The bucket index assigned to a pair: `get_bucket_ix(max(X_len, y_len), bucket_range)`. -/
def bucketOf {α β : Type} (bucket_range : Nat) (p : List α × List β) : Nat :=
  get_bucket_ix (max p.1.length p.2.length) bucket_range

/-- One body of the assignment loop: `if bucket not in buckets:` insert a
fresh bucket at the end of the dictionary (insertion order), then apply the
four mutations of `buckets[bucket]` (`addPair`).  When the key was absent the
entry just inserted is `Bucket.empty`, so the mutated bucket is
`addPair Bucket.empty X_seq y_seq`. -/
def assignOne {α β : Type} (bucket_range : Nat) (bs : Buckets α β)
    (X_seq : List α) (y_seq : List β) : Buckets α β :=
  let bucket := get_bucket_ix (max X_seq.length y_seq.length) bucket_range
  match bfind bs bucket with
  | none => bset (bs ++ [(bucket, Bucket.empty)]) bucket (addPair Bucket.empty X_seq y_seq)
  | some b => bset bs bucket (addPair b X_seq y_seq)

/-- The assignment loop `for i in range(len(X_sequences))` of `split_to_buckets`:
each pair is appended to the bucket named by `bucketOf`, creating the bucket
(at the end of the dictionary, i.e. in insertion order) when absent. -/
def assignPairs {α β : Type} (bucket_range : Nat) :
    List (List α × List β) → Buckets α β → Buckets α β
  | [], bs => bs
  | (X_seq, y_seq) :: rest, bs =>
    assignPairs bucket_range rest (assignOne bucket_range bs X_seq y_seq)

/-- One iteration of the merge loop at key `ix`, where `n = len(buckets.keys())`
(constant during the loop: the loop body never adds or removes a key).
Returns the updated dictionary and whether `ix` was appended to `delete_ixs`.
A missing merge target raises `KeyError`, exactly where Python would:
in the downward branch at the tracker overwrite, in the upward branch at the
list concatenation — either way the call aborts.  The upward branch leaves
the target's trackers untouched; the downward branch overwrites them with
the undersized bucket's values before concatenating. -/
def mergeOne {α β : Type} (bucket_min_size n : Nat) (bs : Buckets α β) (ix : Nat) :
    Except PyErr (Buckets α β × Bool) :=
  match bfind bs ix with
  | none => .error .keyError
  | some bucket =>
    if bucket.X_word_seq.length < bucket_min_size then
      if ix < n then
        match bfind bs (ix + 1) with
        | none => .error .keyError
        | some t =>
          .ok (bset bs (ix + 1)
            { t with X_word_seq := t.X_word_seq ++ bucket.X_word_seq
                   , y_word_seq := t.y_word_seq ++ bucket.y_word_seq }, true)
      else
        match bfind bs (ix - 1) with
        | none => .error .keyError
        | some t =>
          .ok (bset bs (ix - 1)
            { X_word_seq := t.X_word_seq ++ bucket.X_word_seq
            , y_word_seq := t.y_word_seq ++ bucket.y_word_seq
            , X_max_seq_len := bucket.X_max_seq_len
            , y_max_seq_len := bucket.y_max_seq_len }, true)
    else .ok (bs, false)

/-- The merge loop `for ix in buckets.keys()` over the snapshot `ks` of keys,
threading the dictionary and the `delete_ixs` accumulator. -/
def mergePass {α β : Type} (bucket_min_size n : Nat) :
    List Nat → Buckets α β → List Nat → Except PyErr (Buckets α β × List Nat)
  | [], bs, delete_ixs => .ok (bs, delete_ixs)
  | ix :: rest, bs, delete_ixs =>
    match mergeOne bucket_min_size n bs ix with
    | .error e => .error e
    | .ok (bs', flag) =>
      mergePass bucket_min_size n rest bs'
        (if flag then delete_ixs ++ [ix] else delete_ixs)

/-- The whole post-pass: run the merge loop over the keys present after
assignment (with `n = len(buckets.keys())`), then `del buckets[ix]` for every
collected index. -/
def mergeBuckets {α β : Type} (bucket_min_size : Nat) (bs : Buckets α β) :
    Except PyErr (Buckets α β) :=
  match mergePass bucket_min_size bs.length (bs.map Prod.fst) bs [] with
  | .error e => .error e
  | .ok (bs', delete_ixs) => .ok (bs'.filter (fun kb => !(delete_ixs.contains kb.1)))

/-- Assignment followed by the merge post-pass: the part of `split_to_buckets`
after the argument checks, which never looks at `X_max_len`/`y_max_len`. -/
def splitCore {α β : Type} (bucket_range bucket_min_size : Nat)
    (X_sequences : List (List α)) (y_sequences : List (List β)) :
    Except PyErr (Buckets α β) :=
  mergeBuckets bucket_min_size (assignPairs bucket_range (X_sequences.zip y_sequences) [])

/-- Python truthiness of the optional `X_max_len`/`y_max_len` arguments:
`None` and `0` are falsy. -/
def pyTruthy (v : Option Nat) : Bool :=
  match v with
  | none => false
  | some n => n ≠ 0

/-- Python `max(len(seq) for seq in seqs)` on a nonempty list (lengths are naturals,
so folding from 0 agrees with Python's `max` of a nonempty sequence). -/
def maxSeqLen {α : Type} (seqs : List (List α)) : Nat :=
  (seqs.map List.length).foldl max 0

/-- The value of `X_max_len` (resp. `y_max_len`) after the `if not X_max_len:` defaulting:
a falsy argument is recomputed, and Python's `max` over an empty generator
raises `ValueError`. -/
def computeMaxLen {α : Type} (given : Option Nat) (seqs : List (List α)) :
    Except PyErr Nat :=
  if pyTruthy given then .ok (given.getD 0)
  else if seqs.isEmpty then .error .valueError
  else .ok (maxSeqLen seqs)

/-- Python `split_to_buckets(X_sequences, y_sequences, bucket_range, X_max_len,
y_max_len, bucket_min_size)`.  The `assert` runs first; the defaulted maxima
feed only `num_buckets`, which is logged and never used. -/
def split_to_buckets {α β : Type} (X_sequences : List (List α)) (y_sequences : List (List β))
    (bucket_range : Nat) (X_max_len y_max_len : Option Nat) (bucket_min_size : Nat) :
    Except PyErr (Buckets α β) :=
  if X_sequences.length ≠ y_sequences.length then .error .assertionError
  else
    match computeMaxLen X_max_len X_sequences with
    | .error e => .error e
    | .ok X_max =>
      match computeMaxLen y_max_len y_sequences with
      | .error e => .error e
      | .ok y_max =>
        let all_max_len := max X_max y_max
        -- `num_buckets` is computed for the debug log only
        let _num_buckets := get_bucket_ix all_max_len bucket_range
        splitCore bucket_range bucket_min_size X_sequences y_sequences

/-- Total number of pairs over all buckets of a mapping. -/
def totalPairs {α β : Type} (bs : Buckets α β) : Nat :=
  (bs.map (fun kb => kb.2.X_word_seq.length)).sum

/-- Folding a list of pairs into a bucket with `addPair`. -/
def addAll {α β : Type} (b : Bucket α β) (qs : List (List α × List β)) : Bucket α β :=
  qs.foldl (fun b p => addPair b p.1 p.2) b

/-- The sublist of pairs whose assigned bucket index is `k`, in input order. -/
def pairsAt {α β : Type} (r k : Nat) (ps : List (List α × List β)) :
    List (List α × List β) :=
  ps.filter (fun p => decide (bucketOf r p = k))

/-- Spec-side description of a bucket built from the pair list `qs`, following
the spec's wording: the X/y lists are the assigned pairs in input order, and
the trackers are the running maxima of the assigned lengths. -/
def mkBucket {α β : Type} (qs : List (List α × List β)) : Bucket α β :=
  { X_word_seq := qs.map Prod.fst
  , y_word_seq := qs.map Prod.snd
  , X_max_seq_len := (qs.map (fun p => p.1.length)).foldl max 0
  , y_max_seq_len := (qs.map (fun p => p.2.length)).foldl max 0 }

/-- The result of `KeyedVectors.load_word2vec_format`, abstracted to what
`load_embedding_weights` reads from it: the declared dimension
(`model.vector_size`) and the loaded word-to-vector entries (`word in model`
and `model[word]`).  Scalars are an arbitrary type `F`. -/
structure KeyedVectors (F : Type) where
  vector_size : Nat
  entries : List (String × List F)

/-- Lookup of a word among the loaded vectors (keys are unique in a loaded
model, so first-match lookup is the dictionary lookup). -/
def kvFind {F : Type} (entries : List (String × List F)) (word : String) :
    Option (List F) :=
  match entries with
  | [] => none
  | (w, v) :: rest => if w = word then some v else kvFind rest word

/-- Python `load_embedding_weights(path, words, limit)` with the loaded model
abstracted to a `KeyedVectors` value.  The vocabulary `words` is the dict
`{index: word}` as an insertion-ordered association list, iterated as
`words.items()`.  Each `np.random.uniform(low=-1.0, high=1.0, size=(dim))`
draw for an out-of-vocabulary word is modelled by an oracle `oov` indexed by
the position of the entry in the iteration (one independent draw per entry).
`np.zeros(dim)` is `List.replicate model.vector_size zero`. -/
def load_embedding_weights {F : Type} (zero : F) (model : KeyedVectors F)
    (words : List (Nat × String)) (oov : Nat → List F) : List (List F) :=
  words.enum.map (fun iw =>
    if iw.2.1 = 0 then List.replicate model.vector_size zero
    else
      match kvFind model.entries iw.2.2 with
      | some v => v
      | none => oov iw.1)

/-- The `x_word_seq` demo list from the source's main block. -/
def x_word_seq : List (List String) :=
  [ ["1"]
  , ["1", "2"]
  , ["1", "2", "3"]
  , ["1", "2", "3", "4"]
  , ["1", "2", "3", "4", "5"]
  , ["1", "2", "3", "4", "5"]
  , ["1", "2", "3", "4", "5", "6", "7", "8", "9"] ]

/-- The `y_word_seq` demo list from the source's main block. -/
def y_word_seq : List (List String) :=
  [ ["1"]
  , ["1", "2"]
  , ["1", "2"]
  , ["1", "2", "3", "4"]
  , ["1", "2", "3", "4", "5"]
  , ["1", "2", "3", "4", "5", "6", "7"]
  , ["1", "2", "3", "4", "5", "6", "7", "8", "9"] ]

/-- The mapping returned by the demo call
`split_to_buckets(x_word_seq, y_word_seq, 2, bucket_min_size=2)`. -/
def demoBuckets : Buckets String String :=
  [ (1, { X_word_seq := [["1"], ["1", "2"]]
        , y_word_seq := [["1"], ["1", "2"]]
        , X_max_seq_len := 2, y_max_seq_len := 2 })
  , (2, { X_word_seq := [["1", "2", "3"], ["1", "2", "3", "4"]]
        , y_word_seq := [["1", "2"], ["1", "2", "3", "4"]]
        , X_max_seq_len := 4, y_max_seq_len := 4 })
  , (4, { X_word_seq := [ ["1", "2", "3", "4", "5"]
                        , ["1", "2", "3", "4", "5"]
                        , ["1", "2", "3", "4", "5", "6", "7", "8", "9"] ]
        , y_word_seq := [ ["1", "2", "3", "4", "5", "6", "7"]
                        , ["1", "2", "3", "4", "5"]
                        , ["1", "2", "3", "4", "5", "6", "7", "8", "9"] ]
        , X_max_seq_len := 9, y_max_seq_len := 9 }) ]

/-- Five sequence pairs of lengths 2, 3, 4, 4, 4: with `bucket_range = 1` and
`bucket_min_size = 3` the merge post-pass drops the length-2 and length-3
pairs (bucket 2 merges upward into bucket 3, bucket 3 then merges downward
into the already-flagged bucket 2, and both are deleted). -/
def lostPairsDemo : List (List Nat) :=
  [[0, 0], [0, 0, 0], [0, 0, 0, 0], [0, 0, 0, 0], [0, 0, 0, 0]]

/-- The mapping actually returned on `lostPairsDemo`: only the bucket of the
three length-4 pairs survives. -/
def lostPairsResult : Buckets Nat Nat :=
  [ (4, { X_word_seq := [[0, 0, 0, 0], [0, 0, 0, 0], [0, 0, 0, 0]]
        , y_word_seq := [[0, 0, 0, 0], [0, 0, 0, 0], [0, 0, 0, 0]]
        , X_max_seq_len := 4, y_max_seq_len := 4 }) ]

/-- The mapping returned for two length-1 pairs with `bucket_range = 1` and
`bucket_min_size = 2` (used to witness universally quantified theorems). -/
def twoPairsResult : Buckets Nat Nat :=
  [ (1, { X_word_seq := [[0], [0]]
        , y_word_seq := [[0], [0]]
        , X_max_seq_len := 1, y_max_seq_len := 1 }) ]

/-- A one-pair bucket (concrete input for the merge-step witnesses). -/
def mergeDemoA : Bucket Nat Nat :=
  { X_word_seq := [[0]], y_word_seq := [[0]], X_max_seq_len := 1, y_max_seq_len := 1 }

/-- Another one-pair bucket (concrete input for the merge-step witnesses). -/
def mergeDemoB : Bucket Nat Nat :=
  { X_word_seq := [[0, 0]], y_word_seq := [[0, 0]], X_max_seq_len := 2, y_max_seq_len := 2 }

/-- A two-bucket dictionary in which both buckets hold one pair. -/
def mergeDemo : Buckets Nat Nat := [(1, mergeDemoA), (2, mergeDemoB)]

/-- Bucket 2 of `mergeDemo` after absorbing bucket 1. -/
def mergeDemoMergedB : Bucket Nat Nat :=
  { X_word_seq := [[0, 0], [0]], y_word_seq := [[0, 0], [0]]
  , X_max_seq_len := 2, y_max_seq_len := 2 }

/-- The mapping `mergeBuckets 2 mergeDemo` returns. -/
def mergeDemoResult : Buckets Nat Nat := [(2, mergeDemoMergedB)]

/-- A loaded two-dimensional vector model with one word (C8 witnesses). -/
def kvDemo : KeyedVectors Int := { vector_size := 2, entries := [("cat", [3, 4])] }

/-- A vocabulary with the padding index first (C8 witnesses). -/
def wordsDemo : List (Nat × String) := [(0, "PAD"), (1, "cat"), (2, "dog")]

end DataUtils

namespace DataUtils

/-- C4: for every length `L ≥ 0` and width `W > 0`, `get_bucket_ix L W` is
`L / W + 1` when `L % W ≠ 0` and `L / W` otherwise (ceiling division), lengths
`1..W` map to bucket 1, lengths `W+1..2W` map to bucket 2, length 0 maps to
bucket 0, and in particular `get_bucket_ix 0 3 = 0`, `get_bucket_ix 3 3 = 1`
and `get_bucket_ix 4 3 = 2`. -/
theorem get_bucket_ix_ceiling (L W : Nat) (hW : 0 < W) :
    (get_bucket_ix L W = L / W + (if L % W ≠ 0 then 1 else 0)) ∧
    (1 ≤ L → L ≤ W → get_bucket_ix L W = 1) ∧
    (W + 1 ≤ L → L ≤ 2 * W → get_bucket_ix L W = 2) ∧
    get_bucket_ix 0 W = 0 ∧
    get_bucket_ix 0 3 = 0 ∧ get_bucket_ix 3 3 = 1 ∧ get_bucket_ix 4 3 = 2 := by
  refine ⟨rfl, ?_, ?_, ?_, by decide, by decide, by decide⟩
  · intro h1 h2
    rcases Nat.lt_or_ge L W with hlt | hge
    · have hd : L / W = 0 := Nat.div_eq_of_lt hlt
      have hm : L % W = L := Nat.mod_eq_of_lt hlt
      have hL : L ≠ 0 := Nat.one_le_iff_ne_zero.mp h1
      simp [get_bucket_ix, hd, hm, hL]
    · have hLW : L = W := le_antisymm h2 hge
      subst hLW
      simp [get_bucket_ix, Nat.div_self hW, Nat.mod_self]
  · intro h1 h2
    rcases Nat.lt_or_ge L (2 * W) with hlt | hge
    · have hWle : W ≤ L := le_trans (Nat.le_add_right W 1) h1
      have hd : L / W = 1 := by
        rw [Nat.div_eq_sub_div hW hWle, Nat.div_eq_of_lt (by omega)]
      have hm : L % W = L - W := by
        rw [Nat.mod_eq_sub_mod hWle, Nat.mod_eq_of_lt (by omega)]
      have hne : L - W ≠ 0 := by omega
      simp [get_bucket_ix, hd, hm, hne]
    · have hL2 : L = 2 * W := le_antisymm h2 hge
      subst hL2
      have hd : 2 * W / W = 2 := Nat.mul_div_cancel 2 hW
      have hm : 2 * W % W = 0 := Nat.mul_mod_left 2 W
      simp [get_bucket_ix, hd, hm]
  · simp [get_bucket_ix, Nat.zero_div, Nat.zero_mod]

/-- Witness for C4 at `L = 4`, `W = 3`. -/
theorem get_bucket_ix_ceiling_witness :
    0 < 3 ∧ (4 : Nat) = 3 + 1 ∧ (4 : Nat) ≤ 2 * 3 ∧ get_bucket_ix 4 3 = 2 :=
  ⟨by decide, by decide, by decide,
   (get_bucket_ix_ceiling 4 3 (by decide)).2.2.1 (by decide) (by decide)⟩

/-- C9: on the input with bucket keys 1 and 3 only (pair lengths 1, 3, 3,
`bucket_range = 1`, `bucket_min_size = 2`), bucket 1 is undersized, its index
1 is below the key count 2, so the merge pass targets the absent key 2 and
the call raises `KeyError` instead of returning a mapping. -/
theorem split_to_buckets_keyError_noncontiguous :
    split_to_buckets ([[0], [0, 0, 0], [0, 0, 0]] : List (List Nat))
      ([[0], [0, 0, 0], [0, 0, 0]] : List (List Nat)) 1 none none 2 =
      .error .keyError := by
  rfl

/-- C1 (failing evaluation): on the five pairs of lengths 2, 3, 4, 4, 4 with
`bucket_range = 1` and `bucket_min_size = 3`, `split_to_buckets` returns
normally but its result holds only the three length-4 pairs: the length-2 and
length-3 pairs appear in no bucket of the returned mapping, refuting the
claim that every input pair appears in exactly one bucket. -/
theorem split_to_buckets_drops_pairs :
    split_to_buckets lostPairsDemo lostPairsDemo 1 none none 3 = .ok lostPairsResult ∧
    totalPairs lostPairsResult = 3 ∧
    lostPairsDemo.length = 5 :=
  ⟨rfl, rfl, rfl⟩

/-- C7: the demo call `split_to_buckets(x_word_seq, y_word_seq, 2,
bucket_min_size=2)` returns exactly `demoBuckets`: the two pairs of
max-length at most 2 share bucket 1, the two pairs of max-length 3..4 share
bucket 2, every returned bucket holds at least 2 pairs, and the pair counts
over all returned buckets sum to 7. -/
theorem split_to_buckets_demo :
    split_to_buckets x_word_seq y_word_seq 2 none none 2 = .ok demoBuckets ∧
    totalPairs demoBuckets = 7 ∧
    bfind demoBuckets 1 =
      some { X_word_seq := [["1"], ["1", "2"]]
           , y_word_seq := [["1"], ["1", "2"]]
           , X_max_seq_len := 2, y_max_seq_len := 2 } ∧
    bfind demoBuckets 2 =
      some { X_word_seq := [["1", "2", "3"], ["1", "2", "3", "4"]]
           , y_word_seq := [["1", "2"], ["1", "2", "3", "4"]]
           , X_max_seq_len := 4, y_max_seq_len := 4 } ∧
    (∀ kb ∈ demoBuckets, 2 ≤ kb.2.X_word_seq.length) := by
  refine ⟨rfl, rfl, rfl, rfl, ?_⟩
  intro kb hkb
  simp only [demoBuckets, List.mem_cons, List.not_mem_nil, or_false] at hkb
  rcases hkb with rfl | rfl | rfl <;> simp

/-! Lemmas about the association-list dictionary operations. -/

@[simp]
theorem bfind_nil {α β : Type} (k : Nat) : bfind ([] : Buckets α β) k = none := rfl

@[simp]
theorem bfind_cons {α β : Type} (k1 : Nat) (b1 : Bucket α β) (rest : Buckets α β) (k : Nat) :
    bfind ((k1, b1) :: rest) k = if k1 = k then some b1 else bfind rest k := rfl

@[simp]
theorem bset_nil {α β : Type} (k : Nat) (b : Bucket α β) :
    bset ([] : Buckets α β) k b = [] := rfl

@[simp]
theorem bset_cons {α β : Type} (k1 : Nat) (b1 : Bucket α β) (rest : Buckets α β)
    (k : Nat) (b : Bucket α β) :
    bset ((k1, b1) :: rest) k b =
      if k1 = k then (k1, b) :: rest else (k1, b1) :: bset rest k b := rfl

theorem bfind_bset {α β : Type} (bs : Buckets α β) (k : Nat) (b : Bucket α β) (k' : Nat) :
    bfind (bset bs k b) k' =
      if k' = k then (bfind bs k).map (fun _ => b) else bfind bs k' := by
  induction bs with
  | nil => by_cases h : k' = k <;> simp [h]
  | cons hd tl ih =>
    obtain ⟨k1, b1⟩ := hd
    by_cases h1 : k1 = k <;> by_cases h2 : k' = k <;> by_cases h3 : k1 = k' <;>
      simp_all

theorem bset_keys {α β : Type} (bs : Buckets α β) (k : Nat) (b : Bucket α β) :
    (bset bs k b).map Prod.fst = bs.map Prod.fst := by
  induction bs with
  | nil => rfl
  | cons hd tl ih =>
    obtain ⟨k1, b1⟩ := hd
    by_cases h : k1 = k <;> simp [h, ih]

theorem bfind_eq_none {α β : Type} (bs : Buckets α β) (k : Nat) :
    bfind bs k = none ↔ k ∉ bs.map Prod.fst := by
  induction bs with
  | nil => simp
  | cons hd tl ih =>
    obtain ⟨k1, b1⟩ := hd
    by_cases h : k1 = k <;> simp_all [eq_comm]

theorem bfind_append {α β : Type} (bs bs' : Buckets α β) (k : Nat) :
    bfind (bs ++ bs') k =
      match bfind bs k with
      | some b => some b
      | none => bfind bs' k := by
  induction bs with
  | nil => simp
  | cons hd tl ih =>
    obtain ⟨k1, b1⟩ := hd
    by_cases h : k1 = k <;> simp [h, ih]

theorem mem_of_bfind {α β : Type} {bs : Buckets α β} {k : Nat} {b : Bucket α β}
    (h : bfind bs k = some b) : (k, b) ∈ bs := by
  induction bs with
  | nil => simp at h
  | cons hd tl ih =>
    obtain ⟨k1, b1⟩ := hd
    by_cases h1 : k1 = k
    · subst h1
      simp at h
      simp [h]
    · simp [h1] at h
      exact List.mem_cons_of_mem _ (ih h)

theorem bfind_of_mem {α β : Type} {bs : Buckets α β}
    (hnd : (bs.map Prod.fst).Nodup) {k : Nat} {b : Bucket α β}
    (h : (k, b) ∈ bs) : bfind bs k = some b := by
  induction bs with
  | nil => simp at h
  | cons hd tl ih =>
    obtain ⟨k1, b1⟩ := hd
    simp only [List.map_cons, List.nodup_cons] at hnd
    rcases List.mem_cons.mp h with heq | hmem
    · obtain ⟨rfl, rfl⟩ := Prod.mk.injEq .. ▸ heq
      simp
    · have hk1 : k1 ≠ k := by
        intro hk
        subst hk
        exact hnd.1 (List.mem_map.mpr ⟨(k1, b), hmem, rfl⟩)
      simpa [hk1] using ih hnd.2 hmem

/-! Lemmas about the assignment loop. -/

theorem bfind_assignOne {α β : Type} (r : Nat) (bs : Buckets α β)
    (Xs : List α) (ys : List β) (k : Nat) :
    bfind (assignOne r bs Xs ys) k =
      if bucketOf r (Xs, ys) = k
      then some (addPair ((bfind bs k).getD Bucket.empty) Xs ys)
      else bfind bs k := by
  have hone : assignOne r bs Xs ys =
      match bfind bs (bucketOf r (Xs, ys)) with
      | none => bset (bs ++ [(bucketOf r (Xs, ys), Bucket.empty)]) (bucketOf r (Xs, ys))
          (addPair Bucket.empty Xs ys)
      | some b => bset bs (bucketOf r (Xs, ys)) (addPair b Xs ys) := rfl
  rw [hone]
  cases hfind : bfind bs (bucketOf r (Xs, ys)) with
  | none =>
    rw [bfind_bset]
    by_cases hk : bucketOf r (Xs, ys) = k
    · subst hk
      simp [bfind_append, hfind]
    · have hk' : ¬ k = bucketOf r (Xs, ys) := fun h => hk h.symm
      rw [if_neg hk', if_neg hk, bfind_append]
      cases hbk : bfind bs k <;> simp [hk]
  | some b =>
    rw [bfind_bset]
    by_cases hk : bucketOf r (Xs, ys) = k
    · subst hk
      simp [hfind]
    · have hk' : ¬ k = bucketOf r (Xs, ys) := fun h => hk h.symm
      rw [if_neg hk', if_neg hk]

theorem assignPairs_bfind {α β : Type} (r : Nat) (ps : List (List α × List β))
    (bs : Buckets α β) (k : Nat) :
    bfind (assignPairs r ps bs) k =
      match bfind bs k with
      | some b => some (addAll b (pairsAt r k ps))
      | none =>
        if (pairsAt r k ps).isEmpty then none
        else some (addAll Bucket.empty (pairsAt r k ps)) := by
  induction ps generalizing bs with
  | nil =>
    cases hb : bfind bs k <;> simp [assignPairs, addAll, pairsAt, hb]
  | cons p rest ih =>
    obtain ⟨Xs, ys⟩ := p
    rw [assignPairs, ih, bfind_assignOne]
    by_cases hb : bucketOf r (Xs, ys) = k
    · simp only [hb, if_pos rfl]
      have hfilter : pairsAt r k ((Xs, ys) :: rest) = (Xs, ys) :: pairsAt r k rest := by
        simp [pairsAt, List.filter, hb]
      rw [hfilter]
      cases hfind : bfind bs k with
      | none => simp [addAll, List.isEmpty]
      | some b => simp [addAll]
    · simp only [hb, if_neg hb]
      have hfilter : pairsAt r k ((Xs, ys) :: rest) = pairsAt r k rest := by
        simp [pairsAt, List.filter, hb]
      rw [hfilter]
      simp

/-! Lemmas about `addAll` and running maxima. -/

@[simp]
theorem addAll_nil {α β : Type} (b : Bucket α β) : addAll b [] = b := rfl

theorem addAll_cons {α β : Type} (b : Bucket α β) (q : List α × List β)
    (qs : List (List α × List β)) :
    addAll b (q :: qs) = addAll (addPair b q.1 q.2) qs := rfl

theorem addAll_X_word_seq {α β : Type} (b : Bucket α β) (qs : List (List α × List β)) :
    (addAll b qs).X_word_seq = b.X_word_seq ++ qs.map Prod.fst := by
  induction qs generalizing b with
  | nil => simp
  | cons q rest ih => simp [addAll_cons, ih, addPair]

theorem addAll_y_word_seq {α β : Type} (b : Bucket α β) (qs : List (List α × List β)) :
    (addAll b qs).y_word_seq = b.y_word_seq ++ qs.map Prod.snd := by
  induction qs generalizing b with
  | nil => simp
  | cons q rest ih => simp [addAll_cons, ih, addPair]

theorem addAll_X_max {α β : Type} (b : Bucket α β) (qs : List (List α × List β)) :
    (addAll b qs).X_max_seq_len = (qs.map (fun p => p.1.length)).foldl max b.X_max_seq_len := by
  induction qs generalizing b with
  | nil => simp
  | cons q rest ih => simp [addAll_cons, ih, addPair]

theorem addAll_y_max {α β : Type} (b : Bucket α β) (qs : List (List α × List β)) :
    (addAll b qs).y_max_seq_len = (qs.map (fun p => p.2.length)).foldl max b.y_max_seq_len := by
  induction qs generalizing b with
  | nil => simp
  | cons q rest ih => simp [addAll_cons, ih, addPair]

theorem addAll_empty_eq_mkBucket {α β : Type} (qs : List (List α × List β)) :
    addAll Bucket.empty qs = mkBucket qs := by
  ext1
  · rw [addAll_X_word_seq]
    simp [Bucket.empty, mkBucket]
  · rw [addAll_y_word_seq]
    simp [Bucket.empty, mkBucket]
  · rw [addAll_X_max]
    simp [Bucket.empty, mkBucket]
  · rw [addAll_y_max]
    simp [Bucket.empty, mkBucket]

theorem le_foldl_max (l : List Nat) (a : Nat) : a ≤ l.foldl max a := by
  induction l generalizing a with
  | nil => simp
  | cons x xs ih => exact le_trans (le_max_left a x) (ih (max a x))

theorem foldl_max_le_of_mem {l : List Nat} {x : Nat} (h : x ∈ l) (a : Nat) :
    x ≤ l.foldl max a := by
  induction l generalizing a with
  | nil => cases h
  | cons y ys ih =>
    rcases List.mem_cons.mp h with rfl | h'
    · exact le_trans (le_max_right a x) (le_foldl_max ys (max a x))
    · exact ih h' (max a y)

theorem foldl_max_mem (l : List Nat) (a : Nat) :
    l.foldl max a = a ∨ l.foldl max a ∈ l := by
  induction l generalizing a with
  | nil => exact Or.inl rfl
  | cons y ys ih =>
    rcases ih (max a y) with h | h
    · rcases max_choice a y with h2 | h2
      · exact Or.inl (by rw [List.foldl_cons, h, h2])
      · exact Or.inr (by rw [List.foldl_cons, h, h2]; exact List.mem_cons_self y ys)
    · exact Or.inr (List.mem_cons_of_mem _ h)

theorem foldl_max_zero_mem {l : List Nat} (h : l ≠ []) : l.foldl max 0 ∈ l := by
  rcases foldl_max_mem l 0 with h0 | hm
  · cases l with
    | nil => exact absurd rfl h
    | cons x xs =>
      have hx : x ≤ 0 := h0 ▸ foldl_max_le_of_mem (List.mem_cons_self x xs) 0
      rw [h0, ← Nat.le_zero.mp hx]
      exact List.mem_cons_self x xs
  · exact hm

/-- C5: before the merge post-pass, `split_to_buckets` assigns each pair to
the bucket indexed `get_bucket_ix (max lengths) bucket_range`, appending in
input order, and each bucket's trackers are the maxima of the assigned
lengths.  Conjuncts: the function is the merge pass applied to the
assignment-loop result; a bucket key is absent exactly when no pair is
assigned to it; a present bucket holds exactly its assigned pairs in input
order with trackers the running maxima; every assigned pair's lengths are
bounded by the trackers; and each tracker is attained by some assigned pair. -/
theorem assignPairs_spec {α β : Type} (X : List (List α)) (y : List (List β))
    (r k m : Nat) (xm ym : Option Nat)
    (hlen : X.length = y.length) (hxm : pyTruthy xm = true) (hym : pyTruthy ym = true) :
    split_to_buckets X y r xm ym m = mergeBuckets m (assignPairs r (X.zip y) []) ∧
    ((pairsAt r k (X.zip y)).isEmpty = true → bfind (assignPairs r (X.zip y) []) k = none) ∧
    ((pairsAt r k (X.zip y)).isEmpty = false →
      bfind (assignPairs r (X.zip y) []) k = some (mkBucket (pairsAt r k (X.zip y)))) ∧
    (∀ p ∈ pairsAt r k (X.zip y),
      bucketOf r p = k ∧
      p.1.length ≤ (mkBucket (pairsAt r k (X.zip y))).X_max_seq_len ∧
      p.2.length ≤ (mkBucket (pairsAt r k (X.zip y))).y_max_seq_len) ∧
    ((pairsAt r k (X.zip y)).isEmpty = false →
      (mkBucket (pairsAt r k (X.zip y))).X_max_seq_len ∈
        (pairsAt r k (X.zip y)).map (fun p => p.1.length) ∧
      (mkBucket (pairsAt r k (X.zip y))).y_max_seq_len ∈
        (pairsAt r k (X.zip y)).map (fun p => p.2.length)) := by
  have hmain := assignPairs_bfind r (X.zip y) [] k
  simp only [bfind_nil] at hmain
  refine ⟨?_, ?_, ?_, ?_, ?_⟩
  · unfold split_to_buckets computeMaxLen splitCore
    rw [if_neg (fun h => h hlen)]
    simp [hxm, hym]
  · intro h
    rw [hmain, if_pos h]
  · intro h
    rw [hmain, if_neg (by simp [h]), addAll_empty_eq_mkBucket]
  · intro p hp
    have hmem : p ∈ X.zip y ∧ decide (bucketOf r p = k) = true :=
      List.mem_filter.mp hp
    refine ⟨of_decide_eq_true hmem.2, ?_, ?_⟩
    · have hb := foldl_max_le_of_mem (x := p.1.length)
        (l := (pairsAt r k (X.zip y)).map (fun q => q.1.length))
        (List.mem_map.mpr ⟨p, hp, rfl⟩) 0
      simpa [mkBucket] using hb
    · have hb := foldl_max_le_of_mem (x := p.2.length)
        (l := (pairsAt r k (X.zip y)).map (fun q => q.2.length))
        (List.mem_map.mpr ⟨p, hp, rfl⟩) 0
      simpa [mkBucket] using hb
  · intro h
    have hne : pairsAt r k (X.zip y) ≠ [] := by
      intro hnil
      rw [hnil] at h
      simp at h
    constructor
    · exact foldl_max_zero_mem (by simpa using hne)
    · exact foldl_max_zero_mem (by simpa using hne)

/-- Witness for C5 on the single pair `([0], [1, 2])` with `bucket_range = 2`,
so the pair lands in bucket 1. -/
theorem assignPairs_spec_witness :
    pyTruthy (some 7) = true ∧
    ([[0]] : List (List Nat)).length = ([[1, 2]] : List (List Nat)).length ∧
    (pairsAt 2 1 (([[0]] : List (List Nat)).zip ([[1, 2]] : List (List Nat)))).isEmpty = false ∧
    bfind (assignPairs 2 (([[0]] : List (List Nat)).zip ([[1, 2]] : List (List Nat))) []) 1 =
      some (mkBucket (pairsAt 2 1 (([[0]] : List (List Nat)).zip ([[1, 2]] : List (List Nat))))) :=
  ⟨rfl, rfl, rfl,
   (assignPairs_spec [[0]] [[1, 2]] 2 1 5 (some 7) (some 7) rfl rfl rfl).2.2.1 rfl⟩

/-! Error classification lemmas: the only exceptions the merge pass can raise
are `KeyError`s, and the only exception the max-length defaulting can raise is
`ValueError`. -/

theorem mergeOne_error {α β : Type} {m n : Nat} {bs : Buckets α β} {ix : Nat} {e : PyErr}
    (h : mergeOne m n bs ix = .error e) : e = .keyError := by
  unfold mergeOne at h
  split at h
  · exact (Except.error.inj h).symm
  · split at h
    · split at h
      · split at h
        · exact (Except.error.inj h).symm
        · cases h
      · split at h
        · exact (Except.error.inj h).symm
        · cases h
    · cases h

theorem mergePass_error {α β : Type} {m n : Nat} {ks : List Nat} {bs : Buckets α β}
    {d : List Nat} {e : PyErr}
    (h : mergePass m n ks bs d = .error e) : e = .keyError := by
  induction ks generalizing bs d with
  | nil => cases h
  | cons ix rest ih =>
    unfold mergePass at h
    cases hone : mergeOne m n bs ix with
    | error e' =>
      rw [hone] at h
      cases h
      exact mergeOne_error hone
    | ok p =>
      rw [hone] at h
      exact ih h

theorem mergeBuckets_error {α β : Type} {m : Nat} {bs : Buckets α β} {e : PyErr}
    (h : mergeBuckets m bs = .error e) : e = .keyError := by
  unfold mergeBuckets at h
  cases hp : mergePass m bs.length (bs.map Prod.fst) bs [] with
  | error e' =>
    rw [hp] at h
    cases h
    exact mergePass_error hp
  | ok p =>
    rw [hp] at h
    cases h

theorem computeMaxLen_error {α : Type} {v : Option Nat} {seqs : List (List α)} {e : PyErr}
    (h : computeMaxLen v seqs = .error e) : e = .valueError := by
  unfold computeMaxLen at h
  split at h
  · cases h
  · split at h
    · exact (Except.error.inj h).symm
    · cases h

/-- Reduction of a normal return to the core: when `split_to_buckets` returns
`.ok`, the result is `splitCore`, which never reads `X_max_len`/`y_max_len`. -/
theorem split_ok_core {α β : Type} {X : List (List α)} {y : List (List β)}
    {r : Nat} {xm ym : Option Nat} {m : Nat} {bs : Buckets α β}
    (h : split_to_buckets X y r xm ym m = .ok bs) : splitCore r m X y = .ok bs := by
  unfold split_to_buckets at h
  by_cases hlen : X.length ≠ y.length
  · rw [if_pos hlen] at h
    cases h
  · rw [if_neg hlen] at h
    cases h1 : computeMaxLen xm X with
    | error e =>
      rw [h1] at h
      cases h
    | ok xv =>
      rw [h1] at h
      cases h2 : computeMaxLen ym y with
      | error e =>
        rw [h2] at h
        cases h
      | ok yv =>
        rw [h2] at h
        exact h

/-- C6: `split_to_buckets` raises its `assert` failure exactly when the two
sequence lists differ in length; the check is the first statement, so no
other input feature can produce (or mask) an `AssertionError`, and on the
mismatch branch the function returns before touching the inputs. -/
theorem split_to_buckets_assert_iff {α β : Type} (X : List (List α)) (y : List (List β))
    (r : Nat) (xm ym : Option Nat) (m : Nat) :
    split_to_buckets X y r xm ym m = .error .assertionError ↔ X.length ≠ y.length := by
  constructor
  · intro h
    by_contra hlen
    unfold split_to_buckets at h
    rw [if_neg (fun hc => hc hlen)] at h
    cases h1 : computeMaxLen xm X with
    | error e =>
      rw [h1] at h
      cases h
      cases computeMaxLen_error h1
    | ok xv =>
      rw [h1] at h
      cases h2 : computeMaxLen ym y with
      | error e =>
        rw [h2] at h
        cases h
        cases computeMaxLen_error h2
      | ok yv =>
        rw [h2] at h
        cases mergeBuckets_error h
  · intro h
    unfold split_to_buckets
    rw [if_pos h]

/-- Witness for C6: mismatched lengths 1 and 2 produce the assertion failure,
and the failing result is independent of every other argument. -/
theorem split_to_buckets_assert_iff_witness :
    (([[0]] : List (List Nat)).length ≠ ([[0], [1]] : List (List Nat)).length) ∧
    split_to_buckets ([[0]] : List (List Nat)) ([[0], [1]] : List (List Nat)) 0 none (some 0) 0 =
      .error .assertionError :=
  ⟨by decide,
   (split_to_buckets_assert_iff [[0]] [[0], [1]] 0 none (some 0) 0).mpr (by decide)⟩

/-- C10: the returned mapping never depends on the `X_max_len`/`y_max_len`
arguments — any two calls agreeing on the sequences, the bucket range and the
minimum size that both return normally return the same mapping (those
arguments only feed the logged `num_buckets`). -/
theorem split_to_buckets_ignores_max_args {α β : Type} (X : List (List α))
    (y : List (List β)) (r m : Nat) (xm ym xm' ym' : Option Nat)
    (bs bs' : Buckets α β)
    (h1 : split_to_buckets X y r xm ym m = .ok bs)
    (h2 : split_to_buckets X y r xm' ym' m = .ok bs') : bs = bs' := by
  have e1 := split_ok_core h1
  have e2 := split_ok_core h2
  rw [e1] at e2
  exact Except.ok.inj e2

/-- Witness for C10: a truthy `X_max_len` with omitted `y_max_len`, against
omitted `X_max_len` with truthy `y_max_len`, on the same sequences. -/
theorem split_to_buckets_ignores_max_args_witness :
    split_to_buckets ([[0], [0]] : List (List Nat)) ([[0], [0]] : List (List Nat))
      1 (some 3) none 2 = .ok twoPairsResult ∧
    split_to_buckets ([[0], [0]] : List (List Nat)) ([[0], [0]] : List (List Nat))
      1 none (some 9) 2 = .ok twoPairsResult ∧
    twoPairsResult = twoPairsResult := by
  have ha : split_to_buckets ([[0], [0]] : List (List Nat)) ([[0], [0]] : List (List Nat))
      1 (some 3) none 2 = .ok twoPairsResult := rfl
  have hb : split_to_buckets ([[0], [0]] : List (List Nat)) ([[0], [0]] : List (List Nat))
      1 none (some 9) 2 = .ok twoPairsResult := rfl
  exact ⟨ha, hb,
    split_to_buckets_ignores_max_args [[0], [0]] [[0], [0]] 1 2 (some 3) none none (some 9)
      twoPairsResult twoPairsResult ha hb⟩

/-! Structure of a successful merge iteration: the key list is unchanged, no
bucket's pair list ever shrinks, and an unflagged iteration means the bucket
met the minimum size when it was examined. -/

theorem mergeOne_ok_cases {α β : Type} {m n : Nat} {bs : Buckets α β} {ix : Nat}
    {bs' : Buckets α β} {flag : Bool}
    (h : mergeOne m n bs ix = .ok (bs', flag)) :
    bs'.map Prod.fst = bs.map Prod.fst ∧
    (∀ k b, bfind bs k = some b →
      ∃ b', bfind bs' k = some b' ∧ b.X_word_seq.length ≤ b'.X_word_seq.length) ∧
    (flag = false → bs' = bs ∧ ∃ b, bfind bs ix = some b ∧ m ≤ b.X_word_seq.length) := by
  unfold mergeOne at h
  split at h
  · cases h
  · rename_i bucket hfind
    split at h
    · split at h
      · split at h
        · cases h
        · rename_i t ht
          injection h with hpair
          injection hpair with hbs hflag
          subst hbs
          subst hflag
          refine ⟨bset_keys .., ?_, ?_⟩
          · intro k b hk
            rw [bfind_bset]
            by_cases hkx : k = ix + 1
            · subst hkx
              rw [if_pos rfl, hk]
              have hbt : b = t := Option.some.inj (hk ▸ ht)
              subst hbt
              exact ⟨_, rfl, by simp⟩
            · rw [if_neg hkx]
              exact ⟨b, hk, le_refl _⟩
          · intro hf
            cases hf
      · split at h
        · cases h
        · rename_i t ht
          injection h with hpair
          injection hpair with hbs hflag
          subst hbs
          subst hflag
          refine ⟨bset_keys .., ?_, ?_⟩
          · intro k b hk
            rw [bfind_bset]
            by_cases hkx : k = ix - 1
            · subst hkx
              rw [if_pos rfl, hk]
              have hbt : b = t := Option.some.inj (hk ▸ ht)
              subst hbt
              exact ⟨_, rfl, by simp⟩
            · rw [if_neg hkx]
              exact ⟨b, hk, le_refl _⟩
          · intro hf
            cases hf
    · rename_i hsize
      injection h with hpair
      injection hpair with hbs hflag
      subst hbs
      subst hflag
      exact ⟨rfl, fun k b hk => ⟨b, hk, le_refl _⟩,
        fun _ => ⟨rfl, bucket, hfind, Nat.not_lt.mp hsize⟩⟩

theorem mergePass_keys {α β : Type} {m n : Nat} {ks : List Nat} {bs bs' : Buckets α β}
    {d d' : List Nat} (h : mergePass m n ks bs d = .ok (bs', d')) :
    bs'.map Prod.fst = bs.map Prod.fst := by
  induction ks generalizing bs d with
  | nil =>
    injection h with hpair
    injection hpair with hbs _
    rw [← hbs]
  | cons ix rest ih =>
    unfold mergePass at h
    cases hone : mergeOne m n bs ix with
    | error e =>
      rw [hone] at h
      cases h
    | ok p =>
      obtain ⟨bs1, flag⟩ := p
      rw [hone] at h
      exact (ih h).trans (mergeOne_ok_cases hone).1

theorem mergePass_size_mono {α β : Type} {m n : Nat} {ks : List Nat} {bs bs' : Buckets α β}
    {d d' : List Nat} (h : mergePass m n ks bs d = .ok (bs', d'))
    {k : Nat} {b : Bucket α β} (hk : bfind bs k = some b) :
    ∃ b', bfind bs' k = some b' ∧ b.X_word_seq.length ≤ b'.X_word_seq.length := by
  induction ks generalizing bs d b with
  | nil =>
    injection h with hpair
    injection hpair with hbs _
    subst hbs
    exact ⟨b, hk, le_refl _⟩
  | cons ix rest ih =>
    unfold mergePass at h
    cases hone : mergeOne m n bs ix with
    | error e =>
      rw [hone] at h
      cases h
    | ok p =>
      obtain ⟨bs1, flag⟩ := p
      rw [hone] at h
      obtain ⟨b1, hb1, hle1⟩ := (mergeOne_ok_cases hone).2.1 k b hk
      obtain ⟨b2, hb2, hle2⟩ := ih h hb1
      exact ⟨b2, hb2, le_trans hle1 hle2⟩

theorem mergePass_delete_mono {α β : Type} {m n : Nat} {ks : List Nat} {bs bs' : Buckets α β}
    {d d' : List Nat} (h : mergePass m n ks bs d = .ok (bs', d')) :
    ∀ x ∈ d, x ∈ d' := by
  induction ks generalizing bs d with
  | nil =>
    injection h with hpair
    injection hpair with _ hd
    subst hd
    exact fun x hx => hx
  | cons ix rest ih =>
    unfold mergePass at h
    cases hone : mergeOne m n bs ix with
    | error e =>
      rw [hone] at h
      cases h
    | ok p =>
      obtain ⟨bs1, flag⟩ := p
      rw [hone] at h
      intro x hx
      refine ih h x ?_
      cases flag with
      | false => exact hx
      | true => exact List.mem_append_left _ hx

theorem mergePass_undersized {α β : Type} {m n : Nat} {ks : List Nat} {bs bs' : Buckets α β}
    {d d' : List Nat} (h : mergePass m n ks bs d = .ok (bs', d')) :
    ∀ ix ∈ ks, ix ∈ d' ∨ ∃ b', bfind bs' ix = some b' ∧ m ≤ b'.X_word_seq.length := by
  induction ks generalizing bs d with
  | nil => exact fun ix hix => absurd hix (List.not_mem_nil ix)
  | cons ix0 rest ih =>
    unfold mergePass at h
    cases hone : mergeOne m n bs ix0 with
    | error e =>
      rw [hone] at h
      cases h
    | ok p =>
      obtain ⟨bs1, flag⟩ := p
      rw [hone] at h
      intro ix hix
      rcases List.mem_cons.mp hix with rfl | hmem
      · cases flag with
        | true =>
          exact Or.inl (mergePass_delete_mono h ix (List.mem_append_right _ (List.mem_singleton.mpr rfl)))
        | false =>
          obtain ⟨hbs1, b, hb, hm⟩ := (mergeOne_ok_cases hone).2.2 rfl
          subst hbs1
          obtain ⟨b', hb', hle⟩ := mergePass_size_mono h hb
          exact Or.inr ⟨b', hb', le_trans hm hle⟩
      · exact ih h ix hmem

theorem assignOne_keys_nodup {α β : Type} {r : Nat} {bs : Buckets α β}
    (hnd : (bs.map Prod.fst).Nodup) (Xs : List α) (ys : List β) :
    ((assignOne r bs Xs ys).map Prod.fst).Nodup := by
  have hone : assignOne r bs Xs ys =
      match bfind bs (bucketOf r (Xs, ys)) with
      | none => bset (bs ++ [(bucketOf r (Xs, ys), Bucket.empty)]) (bucketOf r (Xs, ys))
          (addPair Bucket.empty Xs ys)
      | some b => bset bs (bucketOf r (Xs, ys)) (addPair b Xs ys) := rfl
  rw [hone]
  cases hfind : bfind bs (bucketOf r (Xs, ys)) with
  | none =>
    rw [bset_keys]
    have hnotin := (bfind_eq_none ..).mp hfind
    simp only [List.map_append, List.map_cons, List.map_nil]
    simp [List.nodup_append, hnd, hnotin]
  | some b =>
    rw [bset_keys]
    exact hnd

theorem assignPairs_keys_nodup {α β : Type} {r : Nat} (ps : List (List α × List β))
    {bs : Buckets α β} (hnd : (bs.map Prod.fst).Nodup) :
    ((assignPairs r ps bs).map Prod.fst).Nodup := by
  induction ps generalizing bs with
  | nil => exact hnd
  | cons p rest ih =>
    obtain ⟨Xs, ys⟩ := p
    rw [assignPairs]
    exact ih (assignOne_keys_nodup hnd Xs ys)

theorem mergeBuckets_min_size {α β : Type} {m : Nat} {bs0 bs : Buckets α β}
    (hnd : (bs0.map Prod.fst).Nodup) (h : mergeBuckets m bs0 = .ok bs) :
    ∀ kb ∈ bs, m ≤ kb.2.X_word_seq.length := by
  unfold mergeBuckets at h
  cases hp : mergePass m bs0.length (bs0.map Prod.fst) bs0 [] with
  | error e =>
    rw [hp] at h
    cases h
  | ok p =>
    obtain ⟨bs', d'⟩ := p
    rw [hp] at h
    injection h with hbs
    subst hbs
    intro kb hkb
    obtain ⟨hkb1, hkb2⟩ := List.mem_filter.mp hkb
    have hnotd : kb.1 ∉ d' := by simpa using hkb2
    have hkeys := mergePass_keys hp
    have hnd' : (bs'.map Prod.fst).Nodup := hkeys ▸ hnd
    have hfind : bfind bs' kb.1 = some kb.2 := bfind_of_mem hnd' (by
      cases kb
      exact hkb1)
    have hix : kb.1 ∈ bs0.map Prod.fst := by
      rw [← hkeys]
      exact List.mem_map.mpr ⟨kb, hkb1, rfl⟩
    rcases mergePass_undersized hp kb.1 hix with hd | ⟨b', hb', hm⟩
    · exact absurd hd hnotd
    · rw [hfind] at hb'
      injection hb' with hb''
      rw [hb'']
      exact hm

/-- C2: whenever `split_to_buckets` returns normally, every bucket of the
returned mapping holds at least `bucket_min_size` pairs; the code is in fact
stronger than the claim — the residual-bucket exception the claim allows
(one smaller bucket when the input is smaller than `bucket_min_size`) never
occurs on a normal return, because a lone undersized bucket makes the merge
pass raise `KeyError` instead of returning.  The second conjunct is the
claim's literal bound: at most one undersized bucket. -/
theorem split_to_buckets_min_size {α β : Type} (X : List (List α)) (y : List (List β))
    (r : Nat) (xm ym : Option Nat) (m : Nat) (bs : Buckets α β)
    (h : split_to_buckets X y r xm ym m = .ok bs) :
    (∀ kb ∈ bs, m ≤ kb.2.X_word_seq.length) ∧
    (bs.filter (fun kb => decide (kb.2.X_word_seq.length < m))).length ≤ 1 := by
  have hcore := split_ok_core h
  unfold splitCore at hcore
  have hnd : ((assignPairs r (X.zip y) ([] : Buckets α β)).map Prod.fst).Nodup :=
    assignPairs_keys_nodup (X.zip y) (by simp)
  have h1 := mergeBuckets_min_size hnd hcore
  refine ⟨h1, ?_⟩
  have hempty : bs.filter (fun kb => decide (kb.2.X_word_seq.length < m)) = [] := by
    rw [List.filter_eq_nil_iff]
    intro kb hkb
    simp [Nat.not_lt.mpr (h1 kb hkb)]
  rw [hempty]
  exact Nat.zero_le 1

/-- Witness for C2 on two length-1 pairs with `bucket_min_size = 2`. -/
theorem split_to_buckets_min_size_witness :
    split_to_buckets ([[0], [0]] : List (List Nat)) ([[0], [0]] : List (List Nat))
      1 none none 2 = .ok twoPairsResult ∧
    ∀ kb ∈ twoPairsResult, 2 ≤ kb.2.X_word_seq.length := by
  have ha : split_to_buckets ([[0], [0]] : List (List Nat)) ([[0], [0]] : List (List Nat))
      1 none none 2 = .ok twoPairsResult := rfl
  exact ⟨ha,
    (split_to_buckets_min_size [[0], [0]] [[0], [0]] 1 none none 2 twoPairsResult ha).1⟩

/-- C3: characterization of one merge iteration and of the final deletion.
Conjunct 1: an undersized bucket at `ix < n` (the number of keys) merges into
`ix + 1` — lists concatenated onto the target's, the target's trackers left
as they are.  Conjunct 2: otherwise it merges into `ix - 1` — lists
concatenated, and the target's trackers overwritten with (not maxed against)
the undersized bucket's values.  Conjunct 3: an iteration over an undersized
bucket puts its index on the delete list of any successful pass it starts.
Conjunct 4: every index on the pass's delete list is absent from the mapping
`mergeBuckets` returns. -/
theorem mergeOne_characterization {α β : Type} :
    (∀ (m n ix : Nat) (bs : Buckets α β) (b t : Bucket α β),
      bfind bs ix = some b → b.X_word_seq.length < m → ix < n →
      bfind bs (ix + 1) = some t →
      mergeOne m n bs ix = .ok (bset bs (ix + 1)
        { X_word_seq := t.X_word_seq ++ b.X_word_seq
        , y_word_seq := t.y_word_seq ++ b.y_word_seq
        , X_max_seq_len := t.X_max_seq_len
        , y_max_seq_len := t.y_max_seq_len }, true)) ∧
    (∀ (m n ix : Nat) (bs : Buckets α β) (b t : Bucket α β),
      bfind bs ix = some b → b.X_word_seq.length < m → ¬ ix < n →
      bfind bs (ix - 1) = some t →
      mergeOne m n bs ix = .ok (bset bs (ix - 1)
        { X_word_seq := t.X_word_seq ++ b.X_word_seq
        , y_word_seq := t.y_word_seq ++ b.y_word_seq
        , X_max_seq_len := b.X_max_seq_len
        , y_max_seq_len := b.y_max_seq_len }, true)) ∧
    (∀ (m n ix : Nat) (ks : List Nat) (bs bs' : Buckets α β) (d d' : List Nat)
      (b : Bucket α β),
      mergePass m n (ix :: ks) bs d = .ok (bs', d') →
      bfind bs ix = some b → b.X_word_seq.length < m → ix ∈ d') ∧
    (∀ (m : Nat) (bs0 bs' res : Buckets α β) (d' : List Nat),
      mergePass m bs0.length (bs0.map Prod.fst) bs0 [] = .ok (bs', d') →
      mergeBuckets m bs0 = .ok res →
      ∀ k ∈ d', bfind res k = none) := by
  refine ⟨?_, ?_, ?_, ?_⟩
  · intro m n ix bs b t hb hsize hix ht
    simp [mergeOne, hb, ht, hsize, hix]
  · intro m n ix bs b t hb hsize hix ht
    simp [mergeOne, hb, ht, hsize, hix]
  · intro m n ix ks bs bs' d d' b h hb hsize
    unfold mergePass at h
    cases hone : mergeOne m n bs ix with
    | error e =>
      rw [hone] at h
      cases h
    | ok p =>
      obtain ⟨bs1, flag⟩ := p
      rw [hone] at h
      cases flag with
      | false =>
        obtain ⟨_, b', hb', hm⟩ := (mergeOne_ok_cases hone).2.2 rfl
        rw [hb] at hb'
        injection hb' with hbb
        exact absurd hsize (Nat.not_lt.mpr (hbb ▸ hm))
      | true =>
        exact mergePass_delete_mono h ix (List.mem_append_right _ (List.mem_singleton.mpr rfl))
  · intro m bs0 bs' res d' hp hm k hk
    unfold mergeBuckets at hm
    rw [hp] at hm
    injection hm with hres
    subst hres
    rw [bfind_eq_none]
    intro hmem
    obtain ⟨kb, hkb, hkb1⟩ := List.mem_map.mp hmem
    obtain ⟨_, hfilt⟩ := List.mem_filter.mp hkb
    have : kb.1 ∉ d' := by simpa using hfilt
    exact this (hkb1 ▸ hk)

/-- Witness for C3: both merge directions, the delete list, and the final
deletion, on the concrete two-bucket dictionary `mergeDemo` with
`bucket_min_size = 2`. -/
theorem mergeOne_characterization_witness :
    bfind mergeDemo 1 = some mergeDemoA ∧
    mergeOne 2 2 mergeDemo 1 = .ok (bset mergeDemo 2
      { X_word_seq := mergeDemoB.X_word_seq ++ mergeDemoA.X_word_seq
      , y_word_seq := mergeDemoB.y_word_seq ++ mergeDemoA.y_word_seq
      , X_max_seq_len := mergeDemoB.X_max_seq_len
      , y_max_seq_len := mergeDemoB.y_max_seq_len }, true) ∧
    mergeOne 2 1 mergeDemo 2 = .ok (bset mergeDemo 1
      { X_word_seq := mergeDemoA.X_word_seq ++ mergeDemoB.X_word_seq
      , y_word_seq := mergeDemoA.y_word_seq ++ mergeDemoB.y_word_seq
      , X_max_seq_len := mergeDemoB.X_max_seq_len
      , y_max_seq_len := mergeDemoB.y_max_seq_len }, true) ∧
    (1 ∈ [1] → True) ∧
    1 ∈ [1] ∧
    bfind mergeDemoResult 1 = none := by
  have hfindA : bfind mergeDemo 1 = some mergeDemoA := rfl
  have hfindB : bfind mergeDemo 2 = some mergeDemoB := rfl
  have hpass : mergePass 2 2 (mergeDemo.map Prod.fst) mergeDemo [] =
      .ok ([(1, mergeDemoA), (2, mergeDemoMergedB)], [1]) := rfl
  have hmb : mergeBuckets 2 mergeDemo = .ok mergeDemoResult := rfl
  refine ⟨hfindA,
    mergeOne_characterization.1 2 2 1 mergeDemo mergeDemoA mergeDemoB hfindA
      (by decide) (by decide) hfindB,
    mergeOne_characterization.2.1 2 1 2 mergeDemo mergeDemoB mergeDemoA hfindB
      (by decide) (by decide) hfindA,
    fun _ => trivial, ?_, ?_⟩
  · exact mergeOne_characterization.2.2.1 2 2 1 [2] mergeDemo _ [] [1] mergeDemoA
      hpass hfindA (by decide)
  · exact mergeOne_characterization.2.2.2 2 mergeDemo _ _ [1] hpass hmb 1
      (List.mem_singleton.mpr rfl)

/-- C8 (counterexample): with the vocabulary `{1: "a", 0: "p"}` (entry with
index 0 listed second) and a loaded model of dimension 1 mapping `"a"` to
`[7]`, the first row of the returned matrix is `"a"`'s vector, not the zero
vector: the zero row follows the entry whose *index* is 0, not position 0. -/
theorem load_embedding_weights_row0_counterexample :
    load_embedding_weights (0 : Int) { vector_size := 1, entries := [("a", [7])] }
      [(1, "a"), (0, "p")] (fun _ => []) = [[7], [0]] ∧
    ([7] : List Int) ≠ List.replicate 1 (0 : Int) :=
  ⟨rfl, by decide⟩

/-- C8 (amended): the returned matrix has one row per vocabulary entry, in
the same order as the entries; the row of every entry whose index is 0 is the
all-zero vector of the declared dimension (hence positional row 0 is zero
whenever the first entry carries index 0); and the row of every entry with a
non-zero index whose word is among the loaded vectors is that word's vector. -/
theorem load_embedding_weights_spec (F : Type) (zero : F) (model : KeyedVectors F)
    (words : List (Nat × String)) (oov : Nat → List F) :
    (load_embedding_weights zero model words oov).length = words.length ∧
    (∀ (j index : Nat) (word : String), words[j]? = some (index, word) →
      (index = 0 → (load_embedding_weights zero model words oov)[j]? =
        some (List.replicate model.vector_size zero)) ∧
      (index ≠ 0 → ∀ v, kvFind model.entries word = some v →
        (load_embedding_weights zero model words oov)[j]? = some v)) := by
  constructor
  · simp [load_embedding_weights]
  · intro j index word hj
    have hl : (load_embedding_weights zero model words oov)[j]? =
        (words.enum[j]?).map (fun iw =>
          if iw.2.1 = 0 then List.replicate model.vector_size zero
          else
            match kvFind model.entries iw.2.2 with
            | some v => v
            | none => oov iw.1) := by
      simp [load_embedding_weights]
    have henum : words.enum[j]? = some (j, (index, word)) := by
      rw [List.getElem?_enum, hj]
      rfl
    rw [hl, henum]
    constructor
    · intro h0
      simp [h0]
    · intro hne v hv
      simp [hne, hv]

/-- Witness for C8's amended claim on the vocabulary
`{0: "PAD", 1: "cat", 2: "dog"}` with the loaded model `kvDemo`. -/
theorem load_embedding_weights_spec_witness :
    wordsDemo[0]? = some (0, "PAD") ∧
    (load_embedding_weights (0 : Int) kvDemo wordsDemo (fun _ => [9, 9]))[0]? =
      some (List.replicate kvDemo.vector_size (0 : Int)) ∧
    wordsDemo[1]? = some (1, "cat") ∧
    kvFind kvDemo.entries "cat" = some [3, 4] ∧
    (load_embedding_weights (0 : Int) kvDemo wordsDemo (fun _ => [9, 9]))[1]? = some [3, 4] := by
  refine ⟨rfl, ?_, rfl, rfl, ?_⟩
  · exact ((load_embedding_weights_spec Int 0 kvDemo wordsDemo (fun _ => [9, 9])).2
      0 0 "PAD" rfl).1 rfl
  · exact ((load_embedding_weights_spec Int 0 kvDemo wordsDemo (fun _ => [9, 9])).2
      1 1 "cat" rfl).2 (by decide) [3, 4] rfl

end DataUtils
